import Mathlib

/-!
# wemix-token: the contract-interaction harness (`backend/contract.go`)

A shallow embedding of the `Contract` binding of `backend/contract.go`
(`NewContract`, `compile`, `Deploy`, `Call`, `LowCall`, `Execute`) over a model
of the simulated ledger it drives.

* Go pointers that the code dereferences (`OwnerKey`, `Abi`, the `key`
  parameter of `Execute`) are `Option`s; a call that dereferences `nil`
  does not return, which the embedding renders as the outer `none` of
  the result.
* A Go result pair `(value, error)` is a pair of `Option`s, a Go `error` an
  `Option Err`.
* The libraries the file imports (ABI coding, signing, the EVM, the Solidity
  toolchain) are the fields of `Env`; the ledger operations are modelled from
  section 4.3 of the specification.
-/

namespace Wemix

/-! ## Values -/

/-- Account addresses (`common.Address`); the zero value is `zeroAddress`. -/
abbrev Address := Nat

/-- The zero value `common.Address{}`. -/
def zeroAddress : Address := 0

/-- Byte strings (`[]byte`). -/
abbrev Bytes := List Nat

/-- Private keys (`ecdsa.PrivateKey`, behind a pointer in the source). -/
abbrev Key := Nat

/-- The loosely typed values (`interface{}`) passed as arguments and decoded
as results, as a tagged variant. -/
inductive Val where
  | int (n : Int)
  | addr (a : Address)
  | bool (b : Bool)
  | bytes (b : Bytes)
  | str (s : String)
  | tuple (n : Nat)
  deriving DecidableEq, Repr

/-- The failures the operations report as a Go `error`. -/
inductive Err where
  | compilation
  | encoding
  | decoding
  | nonceLookup
  | signing
  | submission
  | call
  | notFound
  | deployStatus (status : Nat)
  deriving DecidableEq, Repr

/-- A signed transaction: `types.NewTransaction` / `types.NewContractCreation`
followed by `types.SignTx`. `To = none` is a contract creation; `sender` is the
address the signature recovers to. The transaction hash is modelled by the
transaction itself. -/
structure Tx where
  sender : Address
  nonce : Nat
  To : Option Address
  amount : Nat
  gasLimit : Nat
  gasPrice : Nat
  data : Bytes
  deriving DecidableEq, Repr

/-- The outcome of a committed transaction (`types.Receipt`). -/
structure Receipt where
  Status : Nat
  ContractAddress : Address
  BlockNumber : Nat
  TxHash : Tx
  deriving DecidableEq, Repr

/-- A read-only message (`ethereum.CallMsg`). -/
structure CallMsg where
  From : Address
  To : Address
  Data : Bytes
  deriving DecidableEq, Repr

/-- The interface descriptor (`abi.ABI`): the declared method names. -/
structure ABI where
  Methods : List String
  deriving DecidableEq, Repr

/-- The metadata of a compiled contract (`compiler.ContractInfo`); the
`AbiDefinition` is an `interface{}` and may be `nil`. -/
structure ContractInfo where
  Source : String
  AbiDefinition : Option String
  deriving DecidableEq, Repr

/-- One entry of the toolchain output (`compiler.Contract`). -/
structure CompiledContract where
  Code : String
  Info : ContractInfo
  deriving DecidableEq, Repr

/-! ## The simulated ledger -/

/-- Modelled from the spec: the state of the Ledger Simulator
(`backends.SimulatedBackend`, a go-ethereum type): the height of the latest
committed block, the submitted but uncommitted transactions in submission
order, and the receipts of the committed transactions, newest first. -/
structure SimulatedBackend where
  height : Nat
  pending : List Tx
  receipts : List Receipt
  deriving DecidableEq, Repr

/-- The imported libraries, as parameters of the embedding. -/
structure Env where
  /-- `crypto.GenerateKey`, whose error `NewContract` drops. -/
  generateKey : Option Key
  /-- `crypto.PubkeyToAddress(key.PublicKey)`. -/
  pubkeyToAddress : Key → Address
  /-- Whether `types.SignTx` succeeds with the key. -/
  canSign : Key → Bool
  /-- `abi.ABI.Pack`; an empty method name packs constructor arguments. -/
  pack : ABI → String → List Val → Option Bytes
  /-- `abi.ABI.Unpack` into a target with the given prior content. -/
  unpack : ABI → Val → String → Bytes → Option Val
  /-- `Outputs.UnpackValues` of the named method. -/
  unpackValues : ABI → String → Bytes → Option (List Val)
  /-- `compiler.CompileSolidity("", file)`: the output set keyed by
  `file:name`, or a failure. -/
  compileSolidity : String → Option (List (String × CompiledContract))
  /-- What indexing the output set yields at an absent key: `none` when the
  entries are pointers (the value is `nil`), `some z` when they are structs
  (the zero struct). -/
  absentEntry : Option CompiledContract
  /-- `json.Marshal` of the ABI definition. -/
  jsonMarshal : Option String → Option String
  /-- `abi.JSON`. -/
  abiJSON : String → Option ABI
  /-- `common.FromHex`. -/
  fromHex : String → Bytes
  /-- The transactions the ledger refuses as malformed. -/
  malformed : Tx → Bool
  /-- The address of the contract a creation transaction creates
  (`crypto.CreateAddress`). -/
  createAddress : Address → Nat → Address
  /-- The EVM: the status of a transaction executed in the given block on top
  of the committed history. -/
  execute : List Receipt → Nat → Tx → Nat
  /-- The EVM: a read-only call on the latest committed state. -/
  callContract : List Receipt → Nat → CallMsg → Option Bytes

/-- Modelled from the spec: `backends.NewSimulatedBackend`, the empty ledger
at height zero. -/
def newSimulatedBackend : SimulatedBackend :=
  { height := 0, pending := [], receipts := [] }

/-- Modelled from the spec: the next valid nonce of a signer, counting its
committed transactions and its submitted but uncommitted ones. -/
def pendingNonce (b : SimulatedBackend) (a : Address) : Nat :=
  b.receipts.countP (fun r => r.TxHash.sender = a) +
    b.pending.countP (fun t => t.sender = a)

/-- Modelled from the spec: `PendingNonceAt`, which returns the pending nonce
of the signer. -/
def pendingNonceAt (b : SimulatedBackend) (a : Address) : Except Err Nat :=
  .ok (pendingNonce b a)

/-- Modelled from the spec: `SendTransaction` queues the transaction as
pending; it fails if the transaction is malformed or if its nonce is not the
pending nonce of its signer. -/
def sendTransaction (env : Env) (b : SimulatedBackend) (tx : Tx) :
    Except Err SimulatedBackend :=
  if env.malformed tx then .error .submission
  else
    match pendingNonceAt b tx.sender with
    | .error err => .error err
    | .ok nonce =>
      if tx.nonce = nonce then .ok { b with pending := b.pending ++ [tx] }
      else .error .submission

/-- The receipt of one transaction executed in block `blk` on top of the
receipts `rs`. -/
def applyTx (env : Env) (blk : Nat) (rs : List Receipt) (tx : Tx) : List Receipt :=
  { Status := env.execute rs blk tx
    ContractAddress :=
      if tx.To.isNone then env.createAddress tx.sender tx.nonce else zeroAddress
    BlockNumber := blk
    TxHash := tx } :: rs

/-- Modelled from the spec: `Commit` seals all pending transactions into a new
block, one higher than the last, executing each in submission order. -/
def commit (env : Env) (b : SimulatedBackend) : SimulatedBackend :=
  { height := b.height + 1
    pending := []
    receipts := b.pending.foldl (applyTx env (b.height + 1)) b.receipts }

/-- Modelled from the spec: `TransactionReceipt`, the outcome of a committed
transaction (the latest one with that hash); it fails if the transaction has
not been committed into a block. -/
def transactionReceipt (b : SimulatedBackend) (txHash : Tx) : Except Err Receipt :=
  match b.receipts.find? (fun r => decide (r.TxHash = txHash)) with
  | some r => .ok r
  | none => .error .notFound

/-- Modelled from the spec: `CallContract`, a read-only probe of the latest
committed state; it returns no new ledger state. -/
def callContract (env : Env) (b : SimulatedBackend) (msg : CallMsg) :
    Except Err Bytes :=
  match env.callContract b.receipts b.height msg with
  | some out => .ok out
  | none => .error .call

/-- `types.SignTx(tx, types.HomesteadSigner, key)` for a non-nil key: the signed
transaction, sent by the address of the key. -/
def signTx (env : Env) (nonce : Nat) (target : Option Address) (amount gasLimit gasPrice : Nat)
    (data : Bytes) (key : Key) : Except Err Tx :=
  if env.canSign key then
    .ok { sender := env.pubkeyToAddress key, nonce := nonce, To := target, amount := amount
          gasLimit := gasLimit, gasPrice := gasPrice, data := data }
  else .error .signing

/-! ## The contract binding -/

/-- The `Contract` struct of `backend/contract.go`. -/
structure Contract where
  File : String
  Name : String
  Backend : SimulatedBackend
  OwnerKey : Option Key
  Owner : Address
  Info : Option ContractInfo
  ConstructorInputs : List Val
  Abi : Option ABI
  Code : Bytes
  Address : Address
  BlockDeployed : Option Nat
  deriving DecidableEq, Repr

/-- The method `Contract.compile`. The result is `none` when the call does not
return (the looked-up entry is a nil pointer). When the key is absent the source
builds an error value and drops it, and goes on with what the lookup yielded. -/
def compile (env : Env) (p : Contract) : Option (Contract × Option Err) :=
  match env.compileSolidity p.File with
  | none => some (p, some .compilation)
  | some contracts =>
    let entry : Option CompiledContract :=
      match contracts.lookup (p.File ++ ":" ++ p.Name) with
      | some c => some c
      | none => env.absentEntry
    match entry with
    | none => none
    | some contract =>
      match env.jsonMarshal contract.Info.AbiDefinition with
      | none => some (p, some .compilation)
      | some abiBytes =>
        match env.abiJSON abiBytes with
        | none => some (p, some .compilation)
        | some abi =>
          some ({ p with Info := some contract.Info, Abi := some abi
                         Code := env.fromHex contract.Code }, none)

/-- The function `NewContract`: a fresh owner key, an empty ledger, then
`compile`. The result is `none` when the call does not return. -/
def NewContract (env : Env) (file name : String) :
    Option (Option Contract × Option Err) :=
  match env.generateKey with
  | none => none
  | some ownerKey =>
    let r : Contract :=
      { File := file, Name := name, Backend := newSimulatedBackend
        OwnerKey := some ownerKey, Owner := env.pubkeyToAddress ownerKey
        Info := none, ConstructorInputs := [], Abi := none, Code := []
        Address := zeroAddress, BlockDeployed := none }
    match compile env r with
    | none => none
    | some (_, some err) => some (none, some err)
    | some (r1, none) => some (some r1, none)

/-- The creation transaction `Deploy` builds from packed constructor
arguments: nonce 0, no value, gas limit 3000000, gas price 0, and the data
`append(p.Code, input...)`, signed with `OwnerKey`. `SignTx`'s error is dropped
in the source, so a failed signing leaves a nil transaction and the call does
not return. -/
def deployTx (env : Env) (p : Contract) (input : Bytes) : Option Tx :=
  match p.OwnerKey with
  | none => none
  | some ownerKey =>
    match signTx env 0 none 0 3000000 0 (p.Code ++ input) ownerKey with
    | .ok tx => some tx
    | .error _ => none

/-- The method `Contract.Deploy`: the binding after the call and the returned
error; `none` when the call does not return. -/
def Deploy (env : Env) (p : Contract) (args : List Val) :
    Option (Contract × Option Err) :=
  match p.Abi with
  | none => none
  | some abi =>
    match env.pack abi "" args with
    | none => some (p, some .encoding)
    | some input =>
      let p1 := { p with ConstructorInputs := args }
      match deployTx env p1 input with
      | none => none
      | some tx =>
        match sendTransaction env p1.Backend tx with
        | .error err => some (p1, some err)
        | .ok b1 =>
          let p2 := { p1 with Backend := commit env b1 }
          match transactionReceipt p2.Backend tx with
          | .error err => some (p2, some err)
          | .ok receipt =>
            if receipt.Status ≠ 1 then some (p2, some (.deployStatus receipt.Status))
            else
              some ({ p2 with Address := receipt.ContractAddress
                              BlockDeployed := some receipt.BlockNumber }, none)

/-- The method `Contract.Call`: the binding after the call, the content of the
result target if it was written, and the returned error. -/
def Call (env : Env) (p : Contract) (result : Val) (method : String) (args : List Val) :
    Option (Contract × Option Val × Option Err) :=
  match p.Abi with
  | none => none
  | some abi =>
    match env.pack abi method args with
    | none => some (p, none, some .encoding)
    | some input =>
      let msg : CallMsg := { From := zeroAddress, To := p.Address, Data := input }
      match callContract env p.Backend msg with
      | .error err => some (p, none, some err)
      | .ok output =>
        match env.unpack abi result method output with
        | none => some (p, none, some .decoding)
        | some out => some (p, some out, none)

/-- The method `Contract.LowCall`: the binding after the call and the result
pair; the value list is `nil` (`none`) on a packing error and empty on the
later ones. -/
def LowCall (env : Env) (p : Contract) (method : String) (args : List Val) :
    Option (Contract × Option (List Val) × Option Err) :=
  match p.Abi with
  | none => none
  | some abi =>
    match env.pack abi method args with
    | none => some (p, none, some .encoding)
    | some input =>
      let msg : CallMsg := { From := zeroAddress, To := p.Address, Data := input }
      match callContract env p.Backend msg with
      | .error err => some (p, some [], some err)
      | .ok out =>
        match env.unpackValues abi method out with
        | none => some (p, some [], some .decoding)
        | some ret => some (p, some ret, none)

/-- Lines 157 to 159 of `Execute`: a nil key stands for the owner key. -/
def signerKey (p : Contract) (key : Option Key) : Option Key :=
  match key with
  | none => p.OwnerKey
  | some k => some k

/-- Lines 157 to 175 of `Execute`: the default signer, argument packing, the
nonce lookup and signing. The result is the signed transaction or the error
`Execute` returns; `none` when the call does not return. -/
def executeTx (env : Env) (p : Contract) (key : Option Key) (method : String)
    (args : List Val) : Option (Except Err Tx) :=
  let key := signerKey p key
  match p.Abi with
  | none => none
  | some abi =>
    match env.pack abi method args with
    | none => some (.error .encoding)
    | some data =>
      match key with
      | none => none
      | some k =>
        match pendingNonceAt p.Backend (env.pubkeyToAddress k) with
        | .error err => some (.error err)
        | .ok nonce => some (signTx env nonce (some p.Address) 0 10000000 0 data k)

/-- The method `Contract.Execute`: the binding after the call and the result
pair `(receipt, error)`; `none` when the call does not return. -/
def Execute (env : Env) (p : Contract) (key : Option Key) (method : String)
    (args : List Val) : Option (Contract × Option Receipt × Option Err) :=
  match executeTx env p key method args with
  | none => none
  | some (.error err) => some (p, none, some err)
  | some (.ok tx) =>
    match sendTransaction env p.Backend tx with
    | .error err => some (p, none, some err)
    | .ok b1 =>
      let p1 := { p with Backend := commit env b1 }
      match transactionReceipt p1.Backend tx with
      | .error err => some (p1, none, some err)
      | .ok receipt => some (p1, some receipt, none)

/-! ## Scenarios -/

/-- One action of a scenario driver on a binding: the four operations of the
binding, and the two ledger operations a driver reaches through the exported
`Backend` field. -/
inductive Op where
  | deploy (args : List Val)
  | call (result : Val) (method : String) (args : List Val)
  | lowCall (method : String) (args : List Val)
  | execute (key : Option Key) (method : String) (args : List Val)
  | commit
  | send (tx : Tx)
  deriving DecidableEq, Repr

/-- The binding after one action; `none` when the action does not return. -/
def step (env : Env) (p : Contract) : Op → Option Contract
  | .deploy args => (Deploy env p args).map (fun r => r.1)
  | .call result method args => (Call env p result method args).map (fun r => r.1)
  | .lowCall method args => (LowCall env p method args).map (fun r => r.1)
  | .execute key method args => (Execute env p key method args).map (fun r => r.1)
  | .commit => some { p with Backend := commit env p.Backend }
  | .send tx =>
    match sendTransaction env p.Backend tx with
    | .ok b1 => some { p with Backend := b1 }
    | .error _ => some p

/-- The binding after a sequence of actions. -/
def run (env : Env) (p : Contract) : List Op → Option Contract
  | [] => some p
  | op :: ops =>
    match step env p op with
    | none => none
    | some p1 => run env p1 ops

/-- Whether an action is a read-only call. -/
def Op.isRead : Op → Bool
  | .call _ _ _ => true
  | .lowCall _ _ => true
  | _ => false

/-! ## A concrete environment -/

/-- A small environment to evaluate the operations on: a toolchain that knows
the file `a.sol` with the contract `T`, an EVM in which the method with call
data `[7]` succeeds only for the owner (key 1, address 101), and a read-only
call that returns the ledger height. -/
def demoEnv : Env :=
  { generateKey := some 1
    pubkeyToAddress := fun k => 100 + k
    canSign := fun _ => true
    pack := fun _ method args =>
      if method = "" then some (args.map (fun _ => 0))
      else if method = "bad" then none
      else some [7]
    unpack := fun _ _ _ out => some (.bytes out)
    unpackValues := fun _ _ out => some [.bytes out]
    compileSolidity := fun file =>
      if file = "a.sol" then
        some [("a.sol:T", { Code := "c", Info := { Source := "s", AbiDefinition := some "j" } })]
      else none
    absentEntry := some { Code := "", Info := { Source := "", AbiDefinition := none } }
    jsonMarshal := fun d => some (d.getD "null")
    abiJSON := fun _ => some { Methods := [] }
    fromHex := fun s => s.toList.map (fun c => c.toNat)
    malformed := fun _ => false
    createAddress := fun s n => s + n + 1
    execute := fun _ _ tx => if tx.sender = 101 then 1 else 0
    callContract := fun _ h _ => some [h] }

/-- The demonstration environment with a toolchain whose output entries are
pointers. -/
def demoEnvPtr : Env := { demoEnv with absentEntry := none }

/-- A compiled, not yet deployed binding in the demonstration environment. -/
def demoContract : Contract :=
  { File := "a.sol", Name := "T", Backend := newSimulatedBackend
    OwnerKey := some 1, Owner := 101
    Info := some { Source := "s", AbiDefinition := some "j" }
    ConstructorInputs := [], Abi := some { Methods := [] }, Code := [99]
    Address := zeroAddress, BlockDeployed := none }

/-- A binding whose owner (key 2, address 102) the demonstration EVM refuses:
its creation transaction is committed with status 0. -/
def demoContractRefused : Contract :=
  { demoContract with OwnerKey := some 2, Owner := 102 }

/-! ## The accepted transactions -/

/-- The transactions the ledger has accepted, newest first: the pending ones,
then the committed ones. -/
def history (b : SimulatedBackend) : List Tx :=
  b.pending.reverse ++ b.receipts.map (fun r => r.TxHash)

/-- The committed transactions, newest first. -/
def committed (b : SimulatedBackend) : List Tx :=
  b.receipts.map (fun r => r.TxHash)

/-- Every transaction of a newest-first list carries as nonce the number of
older transactions of its signer. -/
def NonceOrdered : List Tx → Prop
  | [] => True
  | t :: older => t.nonce = older.countP (fun u => u.sender = t.sender) ∧ NonceOrdered older

/-- No two transactions of the list have the same signer and the same nonce. -/
def DistinctNonces (l : List Tx) : Prop :=
  l.Pairwise (fun t u => t.sender = u.sender → t.nonce ≠ u.nonce)

/-- The ledger `b1` has accepted at most one transaction more than `b`, with
the pending nonce of its signer in `b`. -/
def Extends (b b1 : SimulatedBackend) : Prop :=
  history b1 = history b ∨
    ∃ tx, tx.nonce = pendingNonce b tx.sender ∧ history b1 = tx :: history b

/-- The fields of the binding that only `NewContract` and `compile` write:
`File`, `Name`, `OwnerKey`, `Owner`, `Abi`, `Code` and `Info` agree. -/
def SameStaticFields (p p1 : Contract) : Prop :=
  p1.File = p.File ∧ p1.Name = p.Name ∧ p1.OwnerKey = p.OwnerKey ∧ p1.Owner = p.Owner ∧
    p1.Abi = p.Abi ∧ p1.Code = p.Code ∧ p1.Info = p.Info

/-! ## Unfolding lemmas -/

theorem sendTransaction_ok {env : Env} {b b1 : SimulatedBackend} {tx : Tx}
    (h : sendTransaction env b tx = .ok b1) :
    b1 = { b with pending := b.pending ++ [tx] } ∧ tx.nonce = pendingNonce b tx.sender ∧
      env.malformed tx = false := by
  unfold sendTransaction pendingNonceAt at h
  by_cases hm : env.malformed tx = true
  · simp [hm] at h
  · by_cases hn : tx.nonce = pendingNonce b tx.sender
    · simp [hm, hn] at h
      exact ⟨h.symm, hn, by simpa using hm⟩
    · simp [hm, hn] at h

theorem sendTransaction_error {env : Env} {b : SimulatedBackend} {tx : Tx} {err : Err}
    (h : sendTransaction env b tx = .error err) : err = .submission := by
  unfold sendTransaction pendingNonceAt at h
  by_cases hm : env.malformed tx = true
  · simp [hm] at h
    exact h.symm
  · by_cases hn : tx.nonce = pendingNonce b tx.sender
    · simp [hm, hn] at h
    · simp [hm, hn] at h
      exact h.symm

theorem commit_height (env : Env) (b : SimulatedBackend) :
    (commit env b).height = b.height + 1 := rfl

theorem Execute_ok_inv {env : Env} {p p1 : Contract} {key : Option Key} {m : String}
    {a : List Val} {r : Receipt} {e : Option Err}
    (h : Execute env p key m a = some (p1, some r, e)) :
    ∃ tx b1, executeTx env p key m a = some (.ok tx) ∧
      sendTransaction env p.Backend tx = .ok b1 ∧
      p1 = { p with Backend := commit env b1 } ∧
      transactionReceipt (commit env b1) tx = .ok r ∧ e = none := by
  unfold Execute at h
  split at h
  · simp at h
  · simp at h
  · rename_i tx htx
    split at h
    · simp at h
    · rename_i b1 hb
      simp only at h
      split at h
      · simp at h
      · rename_i rc hr
        simp only [Option.some.injEq, Prod.mk.injEq] at h
        obtain ⟨rfl, rfl, rfl⟩ := h
        exact ⟨tx, b1, htx, hb, rfl, hr, rfl⟩

theorem Call_frame {env : Env} {p p1 : Contract} {result : Val} {m : String} {a : List Val}
    {v : Option Val} {e : Option Err} (h : Call env p result m a = some (p1, v, e)) :
    p1 = p := by
  unfold Call at h
  dsimp only at h
  repeat' split at h
  all_goals simp only [Option.some.injEq, Prod.mk.injEq, reduceCtorEq] at h
  all_goals exact h.1.symm

theorem LowCall_frame {env : Env} {p p1 : Contract} {m : String} {a : List Val}
    {v : Option (List Val)} {e : Option Err} (h : LowCall env p m a = some (p1, v, e)) :
    p1 = p := by
  unfold LowCall at h
  dsimp only at h
  repeat' split at h
  all_goals simp only [Option.some.injEq, Prod.mk.injEq, reduceCtorEq] at h
  all_goals exact h.1.symm

theorem Call_returns {env : Env} {p : Contract} (h : p.Abi ≠ none) (result : Val)
    (m : String) (a : List Val) : ∃ v e, Call env p result m a = some (p, v, e) := by
  unfold Call
  dsimp only
  repeat' split
  all_goals first | exact absurd (by assumption) h | exact ⟨_, _, rfl⟩

theorem LowCall_returns {env : Env} {p : Contract} (h : p.Abi ≠ none)
    (m : String) (a : List Val) : ∃ v e, LowCall env p m a = some (p, v, e) := by
  unfold LowCall
  dsimp only
  repeat' split
  all_goals first | exact absurd (by assumption) h | exact ⟨_, _, rfl⟩

theorem step_read {env : Env} {p p1 : Contract} {op : Op} (hr : op.isRead = true)
    (h : step env p op = some p1) : p1 = p := by
  cases op <;> simp [Op.isRead] at hr
  · simp only [step, Option.map_eq_some'] at h
    obtain ⟨⟨q, v, e⟩, hq, rfl⟩ := h
    exact Call_frame hq
  · simp only [step, Option.map_eq_some'] at h
    obtain ⟨⟨q, v, e⟩, hq, rfl⟩ := h
    exact LowCall_frame hq

theorem step_read_returns {env : Env} {p : Contract} (habi : p.Abi ≠ none) {op : Op}
    (hr : op.isRead = true) : step env p op = some p := by
  cases op with
  | call result m a =>
    obtain ⟨v, e, h⟩ := @Call_returns env p habi result m a
    simp [step, h]
  | lowCall m a =>
    obtain ⟨v, e, h⟩ := @LowCall_returns env p habi m a
    simp [step, h]
  | _ => simp [Op.isRead] at hr

/-! ## Block height and read-only calls -/

/-- C1: if `Execute` returns a receipt, whatever its status, the block height
of the ledger after the call is the height before the call plus one. -/
theorem execute_advances_height_by_one (env : Env) (p p1 : Contract) (key : Option Key)
    (m : String) (a : List Val) (r : Receipt)
    (h : Execute env p key m a = some (p1, some r, none)) :
    p1.Backend.height = p.Backend.height + 1 := by
  obtain ⟨tx, b1, -, hs, rfl, -, -⟩ := Execute_ok_inv h
  obtain ⟨rfl, -, -⟩ := sendTransaction_ok hs
  rfl

/-- Witness of C1: a call by the owner (status 1) and a call by a stranger
(status 0) each raise the height of the empty ledger from 0 to 1. -/
theorem execute_advances_height_by_one_witness :
    ∃ p1 r1 p2 r2, Execute demoEnv demoContract none "m" [] = some (p1, some r1, none) ∧
      Execute demoEnv demoContract (some 5) "m" [] = some (p2, some r2, none) ∧
      r1.Status = 1 ∧ r2.Status = 0 ∧
      p1.Backend.height = 0 + 1 ∧ p2.Backend.height = 0 + 1 :=
  ⟨_, _, _, _, rfl, rfl, rfl, rfl,
    execute_advances_height_by_one demoEnv demoContract _ none "m" [] _ rfl,
    execute_advances_height_by_one demoEnv demoContract _ (some 5) "m" [] _ rfl⟩

/-- C2: a sequence of `Call` and `LowCall` invocations that runs to its end,
whatever each call returns, leaves the block height, the pending transactions
and the pending nonce of every account as they were; on a binding with an
interface descriptor every such sequence runs to its end. -/
theorem reads_leave_ledger_unchanged (env : Env) (p : Contract) (ops : List Op)
    (hr : ∀ op ∈ ops, op.isRead = true) :
    (∀ p1, run env p ops = some p1 →
      p1.Backend.height = p.Backend.height ∧ p1.Backend.pending = p.Backend.pending ∧
      ∀ a, pendingNonceAt p1.Backend a = pendingNonceAt p.Backend a) ∧
    (p.Abi ≠ none → run env p ops = some p) := by
  induction ops generalizing p with
  | nil =>
    refine ⟨?_, fun _ => rfl⟩
    intro p1 h
    simp only [run, Option.some.injEq] at h
    subst h
    exact ⟨rfl, rfl, fun _ => rfl⟩
  | cons op ops ih =>
    have hop : op.isRead = true := hr op (List.mem_cons_self _ _)
    have hrest : ∀ o ∈ ops, o.isRead = true := fun o ho => hr o (List.mem_cons_of_mem _ ho)
    constructor
    · intro p1 h
      simp only [run] at h
      split at h
      · simp at h
      · rename_i q hq
        have := step_read hop hq
        subst this
        exact (ih q hrest).1 p1 h
    · intro habi
      simp only [run, step_read_returns habi hop]
      exact (ih p hrest).2 habi

/-- Witness of C2: three read-only calls, one of which fails to pack, on the
demonstration binding. -/
theorem reads_leave_ledger_unchanged_witness :
    run demoEnv demoContract [.lowCall "m" [], .call (.int 0) "bad" [], .call (.int 0) "m" []]
      = some demoContract :=
  (reads_leave_ledger_unchanged demoEnv demoContract
    [.lowCall "m" [], .call (.int 0) "bad" [], .call (.int 0) "m" []]
    (by decide)).2 (by decide)

/-! ## Results of `Execute` and `Deploy` -/

/-- C3: when argument packing, the nonce lookup, signing, submission and the
receipt lookup all succeed, `Execute` returns that receipt and a nil error,
whatever the status of the receipt. -/
theorem execute_returns_receipt_as_data (env : Env) (p : Contract) (key : Option Key)
    (m : String) (a : List Val) (abi : ABI) (data : Bytes) (k : Key) (nonce : Nat) (tx : Tx)
    (b1 : SimulatedBackend) (r : Receipt)
    (habi : p.Abi = some abi) (hpack : env.pack abi m a = some data)
    (hkey : signerKey p key = some k)
    (hnonce : pendingNonceAt p.Backend (env.pubkeyToAddress k) = .ok nonce)
    (hsign : signTx env nonce (some p.Address) 0 10000000 0 data k = .ok tx)
    (hsend : sendTransaction env p.Backend tx = .ok b1)
    (hreceipt : transactionReceipt (commit env b1) tx = .ok r) :
    Execute env p key m a = some ({ p with Backend := commit env b1 }, some r, none) := by
  have htx : executeTx env p key m a = some (.ok tx) := by
    simp only [executeTx, habi, hpack, hkey, hnonce, hsign]
  simp only [Execute, htx, hsend, hreceipt]

/-- Witness of C3: a call by a stranger on the demonstration binding is
committed with status 0 and returned as a receipt with a nil error. -/
theorem execute_returns_receipt_as_data_witness :
    ∃ p1 r, Execute demoEnv demoContract (some 5) "m" [] = some (p1, some r, none) ∧
      r.Status = 0 :=
  ⟨_, _, execute_returns_receipt_as_data demoEnv demoContract (some 5) "m" []
    { Methods := [] } [7] 5 0
    { sender := 105, nonce := 0, To := some 0, amount := 0, gasLimit := 10000000
      gasPrice := 0, data := [7] }
    { height := 0
      pending := [{ sender := 105, nonce := 0, To := some 0, amount := 0
                    gasLimit := 10000000, gasPrice := 0, data := [7] }]
      receipts := [] }
    { Status := 0, ContractAddress := 0, BlockNumber := 1
      TxHash := { sender := 105, nonce := 0, To := some 0, amount := 0
                  gasLimit := 10000000, gasPrice := 0, data := [7] } }
    rfl rfl rfl rfl rfl rfl rfl, rfl⟩

/-- C8: `Execute` with a nil key is `Execute` with the owner key: both build
the same signed transaction (or fail alike before building one) and return the
same result and the same binding, ledger included. -/
theorem execute_nil_key_is_owner_key (env : Env) (p : Contract) (m : String)
    (a : List Val) :
    executeTx env p none m a = executeTx env p p.OwnerKey m a ∧
      Execute env p none m a = Execute env p p.OwnerKey m a := by
  have hk : signerKey p none = signerKey p p.OwnerKey := by
    cases h : p.OwnerKey <;> simp [signerKey, h]
  have htx : executeTx env p none m a = executeTx env p p.OwnerKey m a := by
    simp only [executeTx, hk]
  exact ⟨htx, by simp only [Execute, htx]⟩

/-- C10: after a `Deploy` that returns no error, `ConstructorInputs` is the
argument sequence passed to `Deploy`: same length, same value at every index. -/
theorem deploy_records_constructor_inputs (env : Env) (p p1 : Contract) (args : List Val)
    (h : Deploy env p args = some (p1, none)) :
    p1.ConstructorInputs = args ∧ p1.ConstructorInputs.length = args.length ∧
      ∀ i : Nat, p1.ConstructorInputs[i]? = args[i]? := by
  have key : p1.ConstructorInputs = args := by
    unfold Deploy at h
    dsimp only at h
    repeat' split at h
    all_goals simp only [Option.some.injEq, Prod.mk.injEq, reduceCtorEq, and_false,
      and_true] at h
    subst h
    rfl
  exact ⟨key, by rw [key], fun i => by rw [key]⟩

/-- Witness of C10: deploying the demonstration binding with two constructor
addresses records them at indices 0 and 1. -/
theorem deploy_records_constructor_inputs_witness :
    ∃ p1, Deploy demoEnv demoContract [.addr 11, .addr 12] = some (p1, none) ∧
      p1.ConstructorInputs[0]? = some (.addr 11) ∧
      p1.ConstructorInputs[1]? = some (.addr 12) :=
  ⟨_, rfl,
    (deploy_records_constructor_inputs demoEnv demoContract _ [.addr 11, .addr 12] rfl).2.2 0,
    (deploy_records_constructor_inputs demoEnv demoContract _ [.addr 11, .addr 12] rfl).2.2 1⟩

/-! ## Receipts of a committed block -/

theorem find_foldl_applyTx_of_not_mem (env : Env) (blk : Nat) (t : Tx) (l : List Tx)
    (rs : List Receipt) (h : t ∉ l) :
    (l.foldl (applyTx env blk) rs).find? (fun r => decide (r.TxHash = t)) =
      rs.find? (fun r => decide (r.TxHash = t)) := by
  induction l generalizing rs with
  | nil => rfl
  | cons x xs ih =>
    have hx : x ≠ t := fun hxt => h (hxt ▸ List.mem_cons_self _ _)
    have hxs : t ∉ xs := fun hm => h (List.mem_cons_of_mem _ hm)
    rw [List.foldl_cons, ih _ hxs]
    simp [applyTx, List.find?_cons, hx]

theorem find_foldl_applyTx_of_mem (env : Env) (blk : Nat) (t : Tx) (l : List Tx)
    (rs : List Receipt) (h : t ∈ l) :
    ∃ r, (l.foldl (applyTx env blk) rs).find? (fun r => decide (r.TxHash = t)) = some r ∧
      r.BlockNumber = blk ∧ r.TxHash = t ∧
      r.ContractAddress =
        (if t.To.isNone then env.createAddress t.sender t.nonce else zeroAddress) := by
  induction l generalizing rs with
  | nil => simp at h
  | cons x xs ih =>
    rw [List.foldl_cons]
    by_cases hxs : t ∈ xs
    · exact ih _ hxs
    · have hx : t = x := by
        rcases List.mem_cons.mp h with hx | hx
        · exact hx
        · exact absurd hx hxs
      subst hx
      rw [find_foldl_applyTx_of_not_mem env blk t xs _ hxs]
      refine ⟨{ Status := env.execute rs blk t
                ContractAddress :=
                  if t.To.isNone then env.createAddress t.sender t.nonce else zeroAddress
                BlockNumber := blk
                TxHash := t }, ?_, rfl, rfl, rfl⟩
      simp [applyTx, List.find?_cons]

theorem transactionReceipt_commit {env : Env} {b b1 : SimulatedBackend} {tx : Tx}
    (h : sendTransaction env b tx = .ok b1) :
    ∃ r, transactionReceipt (commit env b1) tx = .ok r ∧ r.BlockNumber = b.height + 1 ∧
      r.TxHash = tx ∧
      r.ContractAddress =
        (if tx.To.isNone then env.createAddress tx.sender tx.nonce else zeroAddress) := by
  obtain ⟨rfl, -, -⟩ := sendTransaction_ok h
  obtain ⟨r, hr, h1, h2, h3⟩ :=
    find_foldl_applyTx_of_mem env (b.height + 1) tx (b.pending ++ [tx]) b.receipts (by simp)
  refine ⟨r, ?_, h1, h2, h3⟩
  simp only [transactionReceipt, commit, hr]

theorem deployTx_shape {env : Env} {p : Contract} {input : Bytes} {tx : Tx}
    (h : deployTx env p input = some tx) :
    ∃ k, p.OwnerKey = some k ∧ env.canSign k = true ∧
      tx = { sender := env.pubkeyToAddress k, nonce := 0, To := none, amount := 0
             gasLimit := 3000000, gasPrice := 0, data := p.Code ++ input } := by
  unfold deployTx signTx at h
  cases hk : p.OwnerKey with
  | none => simp [hk] at h
  | some k =>
    by_cases hc : env.canSign k = true
    · simp [hk, hc] at h
      exact ⟨k, rfl, hc, h.symm⟩
    · simp [hk, hc] at h

/-- The ways `Deploy` returns, in the order of the source. -/
theorem Deploy_inv {env : Env} {p p1 : Contract} {args : List Val} {res : Option Err}
    (h : Deploy env p args = some (p1, res)) :
    ∃ abi, p.Abi = some abi ∧
      ((env.pack abi "" args = none ∧ p1 = p ∧ res = some .encoding) ∨
       ∃ input tx, env.pack abi "" args = some input ∧
        deployTx env { p with ConstructorInputs := args } input = some tx ∧
        ((sendTransaction env p.Backend tx = .error .submission ∧
            p1 = { p with ConstructorInputs := args } ∧ res = some .submission) ∨
         ∃ b1, sendTransaction env p.Backend tx = .ok b1 ∧
          ∃ r, transactionReceipt (commit env b1) tx = .ok r ∧
            ((r.Status ≠ 1 ∧
                p1 = { p with ConstructorInputs := args, Backend := commit env b1 } ∧
                res = some (.deployStatus r.Status)) ∨
             (r.Status = 1 ∧
                p1 = { p with ConstructorInputs := args, Backend := commit env b1
                              Address := r.ContractAddress
                              BlockDeployed := some r.BlockNumber } ∧
                res = none)))) := by
  rcases p with ⟨f, n, b, ok, ow, info, ci, oabi, code, addr, bd⟩
  cases oabi with
  | none => simp [Deploy] at h
  | some abi =>
    refine ⟨abi, rfl, ?_⟩
    simp only [Deploy] at h
    dsimp only
    cases hpack : env.pack abi "" args with
    | none =>
      simp only [hpack, Option.some.injEq, Prod.mk.injEq] at h
      exact Or.inl ⟨rfl, h.1.symm, h.2.symm⟩
    | some input =>
      simp only [hpack] at h
      cases htx : deployTx env ⟨f, n, b, ok, ow, info, args, some abi, code, addr, bd⟩ input with
      | none => simp [htx] at h
      | some tx =>
        refine Or.inr ⟨input, tx, rfl, htx, ?_⟩
        simp only [htx] at h
        cases hsend : sendTransaction env b tx with
        | error err =>
          have := sendTransaction_error hsend
          subst this
          simp only [hsend, Option.some.injEq, Prod.mk.injEq] at h
          exact Or.inl ⟨rfl, h.1.symm, h.2.symm⟩
        | ok b1 =>
          refine Or.inr ⟨b1, rfl, ?_⟩
          simp only [hsend] at h
          obtain ⟨r, hr, -⟩ := transactionReceipt_commit hsend
          refine ⟨r, hr, ?_⟩
          simp only [hr] at h
          by_cases hst : r.Status = 1
          · simp only [hst, ne_eq, not_true_eq_false, if_false, Option.some.injEq,
              Prod.mk.injEq] at h
            exact Or.inr ⟨hst, h.1.symm, h.2.symm⟩
          · simp only [ne_eq, hst, not_false_eq_true, if_true, Option.some.injEq,
              Prod.mk.injEq] at h
            exact Or.inl ⟨hst, h.1.symm, h.2.symm⟩

/-- C4: after a `Deploy` that returns no error, `Address` is the contract
address of the receipt of the creation transaction, which is not the zero
address on a ledger that creates no contract there, and `BlockDeployed` is the
block height right after the one `Commit` of the call, one above the height
before it. -/
theorem deploy_sets_address_and_block (env : Env) (p p1 : Contract) (args : List Val)
    (hne : ∀ s n, env.createAddress s n ≠ zeroAddress)
    (h : Deploy env p args = some (p1, none)) :
    ∃ tx b1 r, sendTransaction env p.Backend tx = .ok b1 ∧ tx.To = none ∧
      p1.Backend = commit env b1 ∧
      transactionReceipt p1.Backend tx = .ok r ∧ r.Status = 1 ∧
      p1.Address = r.ContractAddress ∧ p1.Address ≠ zeroAddress ∧
      p1.BlockDeployed = some p1.Backend.height ∧
      p1.Backend.height = p.Backend.height + 1 := by
  obtain ⟨abi, -, hcase⟩ := Deploy_inv h
  rcases hcase with ⟨-, -, hres⟩ | ⟨input, tx, -, htx, hcase⟩
  · simp at hres
  rcases hcase with ⟨-, -, hres⟩ | ⟨b1, hsend, r, hr, hcase⟩
  · simp at hres
  rcases hcase with ⟨-, -, hres⟩ | ⟨hst, rfl, -⟩
  · simp at hres
  obtain ⟨k, -, -, htxeq⟩ := deployTx_shape htx
  obtain ⟨r2, hr2, hblk, -, haddr⟩ := transactionReceipt_commit hsend
  have hrr : r2 = r := by
    rw [hr] at hr2
    exact (Except.ok.inj hr2).symm
  subst hrr
  obtain ⟨hb1, -, -⟩ := sendTransaction_ok hsend
  have hto : tx.To = none := by rw [htxeq]
  refine ⟨tx, b1, r2, hsend, hto, rfl, hr, hst, rfl, ?_, ?_, ?_⟩
  · show r2.ContractAddress ≠ zeroAddress
    rw [haddr, hto]
    exact hne _ _
  · show some r2.BlockNumber = some (commit env b1).height
    rw [hblk, commit_height, hb1]
  · show (commit env b1).height = p.Backend.height + 1
    rw [commit_height, hb1]

/-- Witness of C4: deploying the demonstration binding on the empty ledger
yields the contract address 102 and the deployment block 1. -/
theorem deploy_sets_address_and_block_witness :
    ∃ p1, Deploy demoEnv demoContract [] = some (p1, none) ∧
      p1.Address = 102 ∧ p1.BlockDeployed = some 1 ∧
      ∃ tx b1 r, sendTransaction demoEnv demoContract.Backend tx = .ok b1 ∧ tx.To = none ∧
        p1.Backend = commit demoEnv b1 ∧
        transactionReceipt p1.Backend tx = .ok r ∧ r.Status = 1 ∧
        p1.Address = r.ContractAddress ∧ p1.Address ≠ zeroAddress ∧
        p1.BlockDeployed = some p1.Backend.height ∧
        p1.Backend.height = demoContract.Backend.height + 1 :=
  ⟨_, rfl, rfl, rfl,
    deploy_sets_address_and_block demoEnv demoContract _ []
      (fun s n => Nat.succ_ne_zero (s + n)) rfl⟩

/-- C5: when the creation transaction is committed with a receipt status other
than 1, `Deploy` returns an error; and whenever `Deploy` returns an error,
`Address` and `BlockDeployed` are what they were before the call, so unset if
they were unset. -/
theorem deploy_error_keeps_address (env : Env) (p : Contract) (args : List Val) :
    (∀ abi input tx b1 r, p.Abi = some abi → env.pack abi "" args = some input →
      deployTx env { p with ConstructorInputs := args } input = some tx →
      sendTransaction env p.Backend tx = .ok b1 →
      transactionReceipt (commit env b1) tx = .ok r → r.Status ≠ 1 →
      ∃ p1, Deploy env p args = some (p1, some (.deployStatus r.Status))) ∧
    (∀ p1 err, Deploy env p args = some (p1, some err) →
      p1.Address = p.Address ∧ p1.BlockDeployed = p.BlockDeployed ∧
      (p.Address = zeroAddress → p.BlockDeployed = none →
        p1.Address = zeroAddress ∧ p1.BlockDeployed = none)) := by
  constructor
  · intro abi input tx b1 r habi hpack htx hsend hr hst
    rcases p with ⟨f, n, b, ok, ow, info, ci, oabi, code, addr, bd⟩
    dsimp only at habi htx hsend
    subst habi
    refine ⟨⟨f, n, commit env b1, ok, ow, info, args, some abi, code, addr, bd⟩, ?_⟩
    simp only [Deploy, hpack, htx, hsend, hr, hst, ne_eq, not_false_eq_true, if_true]
  · intro p1 err h
    have key : p1.Address = p.Address ∧ p1.BlockDeployed = p.BlockDeployed := by
      obtain ⟨abi, -, hcase⟩ := Deploy_inv h
      rcases hcase with ⟨-, rfl, -⟩ | ⟨input, tx, -, -, hcase⟩
      · exact ⟨rfl, rfl⟩
      rcases hcase with ⟨-, rfl, -⟩ | ⟨b1, -, r, -, hcase⟩
      · exact ⟨rfl, rfl⟩
      rcases hcase with ⟨-, rfl, -⟩ | ⟨-, -, hres⟩
      · exact ⟨rfl, rfl⟩
      · simp at hres
    exact ⟨key.1, key.2, fun h1 h2 => ⟨key.1.trans h1, key.2.trans h2⟩⟩

/-- Witness of C5: the creation transaction of the refused owner is committed
with status 0; `Deploy` returns the status error and leaves `Address` and
`BlockDeployed` unset. -/
theorem deploy_error_keeps_address_witness :
    ∃ p1, Deploy demoEnv demoContractRefused [] = some (p1, some (.deployStatus 0)) ∧
      p1.Backend.height = 1 ∧ p1.Address = zeroAddress ∧ p1.BlockDeployed = none :=
  ⟨_, rfl, rfl,
    ((deploy_error_keeps_address demoEnv demoContractRefused []).2 _ _ rfl).2.2 rfl rfl⟩

/-! ## Nonces -/

theorem map_TxHash_foldl (env : Env) (blk : Nat) (l : List Tx) (rs : List Receipt) :
    (l.foldl (applyTx env blk) rs).map (fun r => r.TxHash) =
      l.reverse ++ rs.map (fun r => r.TxHash) := by
  induction l generalizing rs with
  | nil => rfl
  | cons x xs ih =>
    rw [List.foldl_cons, ih]
    simp [applyTx]

theorem history_commit (env : Env) (b : SimulatedBackend) :
    history (commit env b) = history b := by
  simp [history, commit, map_TxHash_foldl]

theorem committed_commit (env : Env) (b : SimulatedBackend) :
    committed (commit env b) = history b := by
  simp [history, committed, commit, map_TxHash_foldl]

theorem pendingNonce_eq (b : SimulatedBackend) (a : Address) :
    pendingNonce b a = (history b).countP (fun u => u.sender = a) := by
  simp only [pendingNonce, history, List.countP_append, List.countP_reverse, List.countP_map]
  rw [Nat.add_comm]
  rfl

theorem history_send {env : Env} {b b1 : SimulatedBackend} {tx : Tx}
    (h : sendTransaction env b tx = .ok b1) : history b1 = tx :: history b := by
  obtain ⟨rfl, -, -⟩ := sendTransaction_ok h
  simp [history]

theorem committed_suffix_history (b : SimulatedBackend) :
    committed b <:+ history b :=
  List.suffix_append _ _

theorem extends_refl (b : SimulatedBackend) : Extends b b := Or.inl rfl

theorem extends_commit (env : Env) (b : SimulatedBackend) : Extends b (commit env b) :=
  Or.inl (history_commit env b)

theorem extends_send {env : Env} {b b1 : SimulatedBackend} {tx : Tx}
    (h : sendTransaction env b tx = .ok b1) : Extends b b1 :=
  Or.inr ⟨tx, (sendTransaction_ok h).2.1, history_send h⟩

theorem extends_send_commit {env : Env} {b b1 : SimulatedBackend} {tx : Tx}
    (h : sendTransaction env b tx = .ok b1) : Extends b (commit env b1) :=
  Or.inr ⟨tx, (sendTransaction_ok h).2.1, by rw [history_commit, history_send h]⟩

theorem extends_pendingNonce_le {b b1 : SimulatedBackend} (h : Extends b b1) (a : Address) :
    pendingNonce b a ≤ pendingNonce b1 a := by
  rw [pendingNonce_eq, pendingNonce_eq]
  rcases h with h | ⟨tx, -, h⟩
  · rw [h]
  · rw [h, List.countP_cons]
    exact Nat.le_add_right _ _

theorem extends_nonceOrdered {b b1 : SimulatedBackend} (h : Extends b b1)
    (hb : NonceOrdered (history b)) : NonceOrdered (history b1) := by
  rcases h with h | ⟨tx, hn, h⟩
  · rw [h]
    exact hb
  · rw [h]
    exact ⟨by rw [hn, pendingNonce_eq], hb⟩

theorem pendingNonce_send_commit {env : Env} {b b1 : SimulatedBackend} {tx : Tx}
    (h : sendTransaction env b tx = .ok b1) :
    pendingNonce (commit env b1) tx.sender = pendingNonce b tx.sender + 1 := by
  rw [pendingNonce_eq, pendingNonce_eq, history_commit, history_send h, List.countP_cons]
  simp

/-- What `Execute` leaves of the binding, and how the ledger moves. -/
theorem Execute_frame {env : Env} {p p1 : Contract} {key : Option Key} {m : String}
    {a : List Val} {r : Option Receipt} {e : Option Err}
    (h : Execute env p key m a = some (p1, r, e)) :
    p1.OwnerKey = p.OwnerKey ∧ p1.Abi = p.Abi ∧ p1.Address = p.Address ∧
      Extends p.Backend p1.Backend := by
  unfold Execute at h
  split at h
  · simp at h
  · simp only [Option.some.injEq, Prod.mk.injEq] at h
    obtain ⟨rfl, -, -⟩ := h
    exact ⟨rfl, rfl, rfl, extends_refl _⟩
  · split at h
    · simp only [Option.some.injEq, Prod.mk.injEq] at h
      obtain ⟨rfl, -, -⟩ := h
      exact ⟨rfl, rfl, rfl, extends_refl _⟩
    · rename_i b1 hb
      simp only at h
      split at h
      all_goals
        simp only [Option.some.injEq, Prod.mk.injEq] at h
        obtain ⟨rfl, -, -⟩ := h
        exact ⟨rfl, rfl, rfl, extends_send_commit hb⟩

/-- What `Deploy` leaves of the binding, and how the ledger moves. -/
theorem Deploy_frame {env : Env} {p p1 : Contract} {args : List Val} {res : Option Err}
    (h : Deploy env p args = some (p1, res)) :
    p1.OwnerKey = p.OwnerKey ∧ p1.Abi = p.Abi ∧ Extends p.Backend p1.Backend := by
  obtain ⟨abi, -, hcase⟩ := Deploy_inv h
  rcases hcase with ⟨-, rfl, -⟩ | ⟨input, tx, -, -, hcase⟩
  · exact ⟨rfl, rfl, extends_refl _⟩
  rcases hcase with ⟨-, rfl, -⟩ | ⟨b1, hsend, r, -, hcase⟩
  · exact ⟨rfl, rfl, extends_refl _⟩
  rcases hcase with ⟨-, rfl, -⟩ | ⟨-, rfl, -⟩
  · exact ⟨rfl, rfl, extends_send_commit hsend⟩
  · exact ⟨rfl, rfl, extends_send_commit hsend⟩

theorem step_frame {env : Env} {p p1 : Contract} {op : Op} (h : step env p op = some p1) :
    p1.OwnerKey = p.OwnerKey ∧ p1.Abi = p.Abi ∧ Extends p.Backend p1.Backend := by
  cases op with
  | deploy args =>
    simp only [step, Option.map_eq_some'] at h
    obtain ⟨⟨q, res⟩, hq, rfl⟩ := h
    exact Deploy_frame hq
  | call result m a =>
    have := @step_read env p p1 (.call result m a) rfl h
    subst this
    exact ⟨rfl, rfl, extends_refl _⟩
  | lowCall m a =>
    have := @step_read env p p1 (.lowCall m a) rfl h
    subst this
    exact ⟨rfl, rfl, extends_refl _⟩
  | execute key m a =>
    simp only [step, Option.map_eq_some'] at h
    obtain ⟨⟨q, r, e⟩, hq, rfl⟩ := h
    obtain ⟨h1, h2, -, h3⟩ := Execute_frame hq
    exact ⟨h1, h2, h3⟩
  | commit =>
    simp only [step, Option.some.injEq] at h
    subst h
    exact ⟨rfl, rfl, extends_commit env _⟩
  | send tx =>
    simp only [step] at h
    split at h
    · rename_i b1 hb
      simp only [Option.some.injEq] at h
      subst h
      exact ⟨rfl, rfl, extends_send hb⟩
    · simp only [Option.some.injEq] at h
      subst h
      exact ⟨rfl, rfl, extends_refl _⟩

theorem run_frame {env : Env} {p p1 : Contract} {ops : List Op}
    (h : run env p ops = some p1) :
    p1.OwnerKey = p.OwnerKey ∧ p1.Abi = p.Abi ∧
      (∀ a, pendingNonce p.Backend a ≤ pendingNonce p1.Backend a) ∧
      (NonceOrdered (history p.Backend) → NonceOrdered (history p1.Backend)) := by
  induction ops generalizing p with
  | nil =>
    simp only [run, Option.some.injEq] at h
    subst h
    exact ⟨rfl, rfl, fun _ => Nat.le_refl _, id⟩
  | cons op ops ih =>
    simp only [run] at h
    split at h
    · simp at h
    · rename_i q hq
      obtain ⟨h1, h2, h3⟩ := step_frame hq
      obtain ⟨g1, g2, g3, g4⟩ := ih h
      exact ⟨g1.trans h1, g2.trans h2,
        fun a => Nat.le_trans (extends_pendingNonce_le h3 a) (g3 a),
        fun hb => g4 (extends_nonceOrdered h3 hb)⟩

theorem nonceOrdered_lt {l : List Tx} (h : NonceOrdered l) {u : Tx} (hu : u ∈ l) :
    u.nonce < l.countP (fun v => v.sender = u.sender) := by
  induction l with
  | nil => simp at hu
  | cons x xs ih =>
    rw [List.countP_cons]
    rcases List.mem_cons.mp hu with hx | hx
    · subst hx
      rw [h.1]
      simp
    · exact Nat.lt_of_lt_of_le (ih h.2 hx) (Nat.le_add_right _ _)

theorem nonceOrdered_distinct {l : List Tx} (h : NonceOrdered l) : DistinctNonces l := by
  induction l with
  | nil => exact List.Pairwise.nil
  | cons x xs ih =>
    refine List.Pairwise.cons ?_ (ih h.2)
    intro u hu hs heq
    have hlt := nonceOrdered_lt h.2 hu
    rw [← hs, ← h.1, heq] at hlt
    exact Nat.lt_irrefl _ hlt

theorem executeTx_shape {env : Env} {p : Contract} {key : Option Key} {m : String}
    {a : List Val} {tx : Tx} (h : executeTx env p key m a = some (.ok tx)) :
    ∃ k, signerKey p key = some k ∧ tx.sender = env.pubkeyToAddress k ∧
      tx.nonce = pendingNonce p.Backend (env.pubkeyToAddress k) ∧
      tx.To = some p.Address := by
  unfold executeTx pendingNonceAt signTx at h
  dsimp only at h
  split at h
  · simp at h
  · split at h
    · simp at h
    · split at h
      · simp at h
      · rename_i k hk
        refine ⟨k, hk, ?_⟩
        by_cases hc : env.canSign k = true
        · simp only [hc, if_true, Option.some.injEq, Except.ok.injEq] at h
          subst h
          exact ⟨rfl, rfl, rfl⟩
        · simp [hc] at h

/-- A `Deploy` on a binding whose owner has already had a transaction accepted
returns an error and leaves `Address` and `BlockDeployed` alone. -/
theorem Deploy_rejected {env : Env} {p : Contract} {abi : ABI} {k : Key}
    (habi : p.Abi = some abi) (hk : p.OwnerKey = some k) (hc : env.canSign k = true)
    (hn : 0 < pendingNonce p.Backend (env.pubkeyToAddress k)) (args : List Val) :
    ∃ p1 err, Deploy env p args = some (p1, some err) ∧
      p1.Address = p.Address ∧ p1.BlockDeployed = p.BlockDeployed := by
  rcases p with ⟨f, n, b, ok, ow, info, ci, oabi, code, addr, bd⟩
  dsimp only at habi hk hn
  subst habi hk
  cases hpack : env.pack abi "" args with
  | none =>
    exact ⟨⟨f, n, b, some k, ow, info, ci, some abi, code, addr, bd⟩, .encoding,
      by simp only [Deploy, hpack], rfl, rfl⟩
  | some input =>
    have hsend : sendTransaction env b
        { sender := env.pubkeyToAddress k, nonce := 0, To := none, amount := 0
          gasLimit := 3000000, gasPrice := 0, data := code ++ input } = .error .submission := by
      unfold sendTransaction pendingNonceAt
      split
      · rfl
      · simp only
        rw [if_neg (Nat.ne_of_lt hn)]
    exact ⟨⟨f, n, b, some k, ow, info, args, some abi, code, addr, bd⟩, .submission,
      by simp only [Deploy, hpack, deployTx, signTx, hc, if_true, hsend], rfl, rfl⟩

/-! ## Repeated deployment and nonce order -/

/-- C6: once a `Deploy` has submitted its creation transaction (it returned
nil, or an error of a step after submission), every later `Deploy` on the
binding, after any actions in between, returns an error and leaves `Address`
and `BlockDeployed` unchanged, on a ledger that accepts a transaction only
with the pending nonce of its signer. -/
theorem second_deploy_rejected (env : Env) (p p1 p2 : Contract) (args args2 : List Val)
    (res : Option Err) (ops : List Op)
    (h1 : Deploy env p args = some (p1, res))
    (hsub : res ≠ some .encoding ∧ res ≠ some .submission)
    (hrun : run env p1 ops = some p2) :
    ∃ p3 err, Deploy env p2 args2 = some (p3, some err) ∧
      p3.Address = p2.Address ∧ p3.BlockDeployed = p2.BlockDeployed := by
  obtain ⟨f1, f2, -⟩ := Deploy_frame h1
  obtain ⟨abi, habi, hcase⟩ := Deploy_inv h1
  rcases hcase with ⟨-, -, hres⟩ | ⟨input, tx, -, htx, hcase⟩
  · exact absurd hres hsub.1
  rcases hcase with ⟨-, -, hres⟩ | ⟨b1, hsend, r, -, hcase⟩
  · exact absurd hres hsub.2
  obtain ⟨k, hk, hc, htxeq⟩ := deployTx_shape htx
  have hsender : tx.sender = env.pubkeyToAddress k := by rw [htxeq]
  have hb1 : p1.Backend = commit env b1 := by
    rcases hcase with ⟨-, rfl, -⟩ | ⟨-, rfl, -⟩ <;> rfl
  have hn1 : 0 < pendingNonce p1.Backend (env.pubkeyToAddress k) := by
    rw [hb1, ← hsender, pendingNonce_send_commit hsend]
    exact Nat.succ_pos _
  obtain ⟨g1, g2, g3, -⟩ := run_frame hrun
  exact Deploy_rejected (g2.trans (f2.trans habi)) (g1.trans (f1.trans hk)) hc
    (Nat.lt_of_lt_of_le hn1 (g3 _)) args2

/-- Witness of C6: after a successful deployment and a call by the owner, a
second `Deploy` returns the submission error. -/
theorem second_deploy_rejected_witness :
    ∃ p1 p2 p3, Deploy demoEnv demoContract [] = some (p1, none) ∧
      run demoEnv p1 [.execute none "m" []] = some p2 ∧
      Deploy demoEnv p2 [.int 3] = some (p3, some .submission) ∧
      (∃ q err, Deploy demoEnv p2 [.int 3] = some (q, some err) ∧
        q.Address = p2.Address ∧ q.BlockDeployed = p2.BlockDeployed) :=
  ⟨_, _, _, rfl, rfl, rfl,
    second_deploy_rejected demoEnv demoContract _ _ [] [.int 3] none [.execute none "m" []]
      rfl (by decide) rfl⟩

/-- C7: two `Execute` calls with the same key that return a receipt, the second
after any actions following the first, are sent by the same signer; each uses
the pending nonce of the signer at its moment, which its commit raises by one,
and the second nonce is strictly greater than the first. In every ledger state
reached from the empty ledger, no two committed transactions of one signer
have the same nonce. -/
theorem nonces_increase_and_never_repeat (env : Env) (p p1 p2 p3 : Contract)
    (key : Option Key) (m m2 : String) (a a2 : List Val) (r1 r2 : Receipt) (ops : List Op)
    (q q1 : Contract) (ops0 : List Op)
    (h1 : Execute env p key m a = some (p1, some r1, none))
    (hrun : run env p1 ops = some p2)
    (h2 : Execute env p2 key m2 a2 = some (p3, some r2, none))
    (hq : q.Backend = newSimulatedBackend)
    (hrun0 : run env q ops0 = some q1) :
    r1.TxHash.sender = r2.TxHash.sender ∧
      pendingNonceAt p.Backend r1.TxHash.sender = .ok r1.TxHash.nonce ∧
      pendingNonceAt p1.Backend r1.TxHash.sender = .ok (r1.TxHash.nonce + 1) ∧
      pendingNonceAt p2.Backend r2.TxHash.sender = .ok r2.TxHash.nonce ∧
      r1.TxHash.nonce < r2.TxHash.nonce ∧
      DistinctNonces (committed q1.Backend) := by
  obtain ⟨tx1, b1, htx1, hs1, rfl, hr1, -⟩ := Execute_ok_inv h1
  obtain ⟨tx2, b2, htx2, hs2, rfl, hr2, -⟩ := Execute_ok_inv h2
  obtain ⟨r, hr, -, hh1, -⟩ := transactionReceipt_commit hs1
  rw [hr1] at hr
  obtain rfl := Except.ok.inj hr
  obtain ⟨r, hr, -, hh2, -⟩ := transactionReceipt_commit hs2
  rw [hr2] at hr
  obtain rfl := Except.ok.inj hr
  obtain ⟨k1, hk1, hsd1, hn1, -⟩ := executeTx_shape htx1
  obtain ⟨k2, hk2, hsd2, hn2, -⟩ := executeTx_shape htx2
  obtain ⟨g1, -, g3, -⟩ := run_frame hrun
  have hkk : k2 = k1 := by
    have : signerKey p2 key = signerKey p key := by
      cases key with
      | none => exact g1
      | some k => rfl
    rw [this, hk1] at hk2
    exact (Option.some.inj hk2).symm
  subst hkk
  have hafter : pendingNonce (commit env b1) tx1.sender = tx1.nonce + 1 := by
    rw [pendingNonce_send_commit hs1, hsd1, ← hn1]
  rw [hh1, hh2]
  refine ⟨hsd1.trans hsd2.symm, ?_, ?_, ?_, ?_, ?_⟩
  · rw [hsd1, hn1]
    rfl
  · show Except.ok (pendingNonce (commit env b1) tx1.sender) = Except.ok (tx1.nonce + 1)
    rw [hafter]
  · rw [hsd2, hn2]
    rfl
  · have := g3 tx1.sender
    rw [show pendingNonce ({ p with Backend := commit env b1 } : Contract).Backend tx1.sender
      = tx1.nonce + 1 from hafter, hsd1, ← hn2] at this
    exact this
  · obtain ⟨-, -, -, g4⟩ := run_frame hrun0
    have hord : NonceOrdered (history q1.Backend) := g4 (by rw [hq]; exact trivial)
    exact List.Pairwise.sublist (committed_suffix_history _).sublist
      (nonceOrdered_distinct hord)

/-- Witness of C7: two calls by the stranger with key 5, a `Commit` between
them, use the nonces 0 and 1; the ledger reached by a deployment and a call of
the owner holds no repeated nonce. -/
theorem nonces_increase_and_never_repeat_witness :
    ∃ p1 r1 p2 p3 r2 q1,
      Execute demoEnv demoContract (some 5) "m" [] = some (p1, some r1, none) ∧
      run demoEnv p1 [.commit] = some p2 ∧
      Execute demoEnv p2 (some 5) "m" [] = some (p3, some r2, none) ∧
      run demoEnv demoContract [.deploy [], .execute none "m" []] = some q1 ∧
      r1.TxHash.nonce = 0 ∧ r2.TxHash.nonce = 1 ∧ (committed q1.Backend).length = 2 ∧
      (r1.TxHash.sender = r2.TxHash.sender ∧
        pendingNonceAt demoContract.Backend r1.TxHash.sender = .ok r1.TxHash.nonce ∧
        pendingNonceAt p1.Backend r1.TxHash.sender = .ok (r1.TxHash.nonce + 1) ∧
        pendingNonceAt p2.Backend r2.TxHash.sender = .ok r2.TxHash.nonce ∧
        r1.TxHash.nonce < r2.TxHash.nonce ∧
        DistinctNonces (committed q1.Backend)) :=
  ⟨_, _, _, _, _, _, rfl, rfl, rfl, rfl, rfl, rfl, rfl,
    nonces_increase_and_never_repeat demoEnv demoContract _ _ _ (some 5) "m" "m" [] [] _ _
      [.commit] demoContract _ [.deploy [], .execute none "m" []] rfl rfl rfl rfl rfl⟩

/-! ## Compilation -/

theorem NewContract_toolchain_failure (env : Env) (file name : String) (k : Key)
    (hk : env.generateKey = some k) (hc : env.compileSolidity file = none) :
    NewContract env file name = some (none, some .compilation) := by
  simp only [NewContract, hk, compile, hc]

/-- C9 on the code: when the toolchain fails, `NewContract` returns an error
and no binding; but when the toolchain succeeds and its output set lacks the
key `file:name`, `NewContract` returns no error: with struct entries it returns
a binding built from the zero entry (empty code), with pointer entries the call
does not return. -/
theorem newContract_absent_contract_not_an_error :
    NewContract demoEnv "b.sol" "T" = some (none, some .compilation) ∧
    (∃ contracts, demoEnv.compileSolidity "a.sol" = some contracts ∧
      contracts.lookup ("a.sol" ++ ":" ++ "Missing") = none) ∧
    NewContract demoEnv "a.sol" "Missing" =
      some (some { File := "a.sol", Name := "Missing", Backend := newSimulatedBackend
                   OwnerKey := some 1, Owner := 101
                   Info := some { Source := "", AbiDefinition := none }
                   ConstructorInputs := [], Abi := some { Methods := [] }, Code := []
                   Address := zeroAddress, BlockDeployed := none }, none) ∧
    NewContract demoEnvPtr "a.sol" "Missing" = none := by
  refine ⟨rfl, ⟨_, rfl, ?_⟩, ?_, ?_⟩
  · decide
  · decide
  · decide

/-! ## Read-only calls, twice -/

/-- C11: a `Call` that returns leaves the binding as it was, so the same `Call`
made again right after it returns the same error and the same decoded value,
also into any other target that decodes alike; likewise for `LowCall`. -/
theorem read_calls_idempotent (env : Env) (p : Contract) (result : Val) (m : String)
    (a : List Val) :
    (∀ p1 v e, Call env p result m a = some (p1, v, e) →
      Call env p1 result m a = some (p1, v, e) ∧
      ∀ abi result2, p.Abi = some abi →
        (∀ out, env.unpack abi result2 m out = env.unpack abi result m out) →
        Call env p1 result2 m a = some (p1, v, e)) ∧
    (∀ p1 vs e, LowCall env p m a = some (p1, vs, e) →
      LowCall env p1 m a = some (p1, vs, e)) := by
  constructor
  · intro p1 v e h
    have hp := Call_frame h
    subst hp
    refine ⟨h, ?_⟩
    intro abi result2 habi hdec
    rw [← h]
    simp only [Call, habi, hdec]
  · intro p1 vs e h
    have hp := LowCall_frame h
    subst hp
    exact h

/-- Witness of C11: the read-only call of the demonstration binding, made
twice, returns the ledger height 0 both times, with `Call` and with `LowCall`;
a call that fails to pack fails alike both times. -/
theorem read_calls_idempotent_witness :
    Call demoEnv demoContract (.int 0) "m" [] = some (demoContract, some (.bytes [0]), none) ∧
    (Call demoEnv demoContract (.int 0) "m" [] = some (demoContract, some (.bytes [0]), none) ∧
      ∀ abi result2, demoContract.Abi = some abi →
        (∀ out, demoEnv.unpack abi result2 "m" out = demoEnv.unpack abi (.int 0) "m" out) →
        Call demoEnv demoContract result2 "m" [] =
          some (demoContract, some (.bytes [0]), none)) ∧
    LowCall demoEnv demoContract "bad" [] = some (demoContract, none, some .encoding) :=
  ⟨rfl,
    (read_calls_idempotent demoEnv demoContract (.int 0) "m" []).1 demoContract
      (some (.bytes [0])) none rfl,
    (read_calls_idempotent demoEnv demoContract (.int 0) "bad" []).2 demoContract
      none (some .encoding) rfl⟩

/-! ## The creation transaction -/

/-- C12 as stated fails: on the demonstration binding (bytecode `[99]`) two
constructor arguments pack to `[0, 0]`, and the creation transaction `Deploy`
submits carries `[99, 0, 0]`, not the arguments followed by the bytecode. -/
theorem deploy_data_prepended_counterexample :
    ∃ input tx p1, demoContract.Abi = some { Methods := [] } ∧
      demoEnv.pack { Methods := [] } "" [.int 1, .int 2] = some input ∧
      deployTx demoEnv { demoContract with ConstructorInputs := [.int 1, .int 2] } input
        = some tx ∧
      Deploy demoEnv demoContract [.int 1, .int 2] = some (p1, none) ∧
      committed p1.Backend = [tx] ∧
      tx.data = [99, 0, 0] ∧ tx.data ≠ input ++ demoContract.Code :=
  ⟨_, _, _, rfl, rfl, rfl, rfl, rfl, rfl, by decide⟩

/-- C12, amended: whenever packing succeeds and `Deploy` returns, the creation
transaction it built and handed to `SendTransaction` carries the compiled
bytecode followed by the packed constructor arguments. -/
theorem deploy_data_is_code_then_arguments (env : Env) (p p1 : Contract) (args : List Val)
    (res : Option Err) (abi : ABI) (input : Bytes)
    (habi : p.Abi = some abi) (hpack : env.pack abi "" args = some input)
    (h : Deploy env p args = some (p1, res)) :
    ∃ tx, deployTx env { p with ConstructorInputs := args } input = some tx ∧
      tx.To = none ∧ tx.data = p.Code ++ input ∧
      (sendTransaction env p.Backend tx = .error .submission ∨
        ∃ b1, sendTransaction env p.Backend tx = .ok b1 ∧ p1.Backend = commit env b1) := by
  obtain ⟨abi2, habi2, hcase⟩ := Deploy_inv h
  rw [habi] at habi2
  obtain rfl := Option.some.inj habi2
  rcases hcase with ⟨hnone, -, -⟩ | ⟨input2, tx, hpack2, htx, hcase⟩
  · rw [hpack] at hnone
    simp at hnone
  rw [hpack] at hpack2
  obtain rfl := Option.some.inj hpack2
  obtain ⟨k, -, -, htxeq⟩ := deployTx_shape htx
  refine ⟨tx, htx, by rw [htxeq], by rw [htxeq], ?_⟩
  rcases hcase with ⟨hsend, -, -⟩ | ⟨b1, hsend, r, -, hcase⟩
  · exact Or.inl hsend
  · refine Or.inr ⟨b1, hsend, ?_⟩
    rcases hcase with ⟨-, rfl, -⟩ | ⟨-, rfl, -⟩ <;> rfl

/-- Witness of C12, amended: the creation transaction of the demonstration
binding carries `[99] ++ [0, 0]`. -/
theorem deploy_data_is_code_then_arguments_witness :
    ∃ p1, Deploy demoEnv demoContract [.int 1, .int 2] = some (p1, none) ∧
      ∃ tx, deployTx demoEnv { demoContract with ConstructorInputs := [.int 1, .int 2] }
          [0, 0] = some tx ∧
        tx.To = none ∧ tx.data = demoContract.Code ++ [0, 0] ∧
        (sendTransaction demoEnv demoContract.Backend tx = .error .submission ∨
          ∃ b1, sendTransaction demoEnv demoContract.Backend tx = .ok b1 ∧
            p1.Backend = commit demoEnv b1) :=
  ⟨_, rfl,
    deploy_data_is_code_then_arguments demoEnv demoContract _ [.int 1, .int 2] none
      { Methods := [] } [0, 0] rfl rfl rfl⟩

/-! ## Error paths of `Execute` and fields written by `Deploy` -/

/-- The ways `Execute` returns, in the order of the source. -/
theorem Execute_inv {env : Env} {p p1 : Contract} {key : Option Key} {m : String}
    {a : List Val} {r : Option Receipt} {e : Option Err}
    (h : Execute env p key m a = some (p1, r, e)) :
    (∃ err, executeTx env p key m a = some (.error err) ∧ p1 = p ∧ r = none ∧ e = some err) ∨
    ∃ tx, executeTx env p key m a = some (.ok tx) ∧
      ((sendTransaction env p.Backend tx = .error .submission ∧ p1 = p ∧ r = none ∧
          e = some .submission) ∨
       ∃ b1, sendTransaction env p.Backend tx = .ok b1 ∧
        p1 = { p with Backend := commit env b1 } ∧
        ((∃ err, transactionReceipt (commit env b1) tx = .error err ∧ r = none ∧
            e = some err) ∨
         ∃ rc, transactionReceipt (commit env b1) tx = .ok rc ∧ r = some rc ∧ e = none)) := by
  unfold Execute at h
  split at h
  · simp at h
  · rename_i err herr
    simp only [Option.some.injEq, Prod.mk.injEq] at h
    obtain ⟨rfl, rfl, rfl⟩ := h
    exact Or.inl ⟨err, herr, rfl, rfl, rfl⟩
  · rename_i tx htx
    refine Or.inr ⟨tx, htx, ?_⟩
    split at h
    · rename_i err hs
      have := sendTransaction_error hs
      subst this
      simp only [Option.some.injEq, Prod.mk.injEq] at h
      obtain ⟨rfl, rfl, rfl⟩ := h
      exact Or.inl ⟨hs, rfl, rfl, rfl⟩
    · rename_i b1 hb
      refine Or.inr ⟨b1, hb, ?_⟩
      simp only at h
      split at h
      · rename_i err hr
        simp only [Option.some.injEq, Prod.mk.injEq] at h
        obtain ⟨rfl, rfl, rfl⟩ := h
        exact ⟨rfl, Or.inl ⟨err, hr, rfl, rfl⟩⟩
      · rename_i rc hr
        simp only [Option.some.injEq, Prod.mk.injEq] at h
        obtain ⟨rfl, rfl, rfl⟩ := h
        exact ⟨rfl, Or.inr ⟨rc, hr, rfl, rfl⟩⟩

/-- C13: whenever `Execute` returns, the receipt is nil exactly when the error
is not. If the error comes from argument packing, the nonce lookup or signing,
the binding and its ledger are untouched: same height, same pending
transactions, same pending nonce for every account. An error returned after a
block was committed is the error of the receipt lookup. -/
theorem execute_error_paths (env : Env) (p p1 : Contract) (key : Option Key) (m : String)
    (a : List Val) (r : Option Receipt) (e : Option Err)
    (h : Execute env p key m a = some (p1, r, e)) :
    (r = none ↔ e ≠ none) ∧
    (∀ err, executeTx env p key m a = some (.error err) →
      e = some err ∧ p1 = p ∧ p1.Backend.height = p.Backend.height ∧
      p1.Backend.pending = p.Backend.pending ∧
      ∀ acct, pendingNonceAt p1.Backend acct = pendingNonceAt p.Backend acct) ∧
    (∀ err, e = some err → p1.Backend ≠ p.Backend →
      ∃ tx b1, executeTx env p key m a = some (.ok tx) ∧
        sendTransaction env p.Backend tx = .ok b1 ∧ p1.Backend = commit env b1 ∧
        transactionReceipt (commit env b1) tx = .error err) := by
  rcases Execute_inv h with ⟨err, htx, rfl, rfl, rfl⟩ | ⟨tx, htx, hcase⟩
  · refine ⟨by simp, ?_, ?_⟩
    · intro err2 h2
      rw [htx] at h2
      have : err = err2 := by
        simpa using h2
      subst this
      exact ⟨rfl, rfl, rfl, rfl, fun _ => rfl⟩
    · intro err2 _ hne
      exact absurd rfl hne
  · rcases hcase with ⟨hs, rfl, rfl, rfl⟩ | ⟨b1, hs, rfl, hcase⟩
    · refine ⟨by simp, ?_, ?_⟩
      · intro err2 h2
        rw [htx] at h2
        simp at h2
      · intro err2 _ hne
        exact absurd rfl hne
    · rcases hcase with ⟨err, hr, rfl, rfl⟩ | ⟨rc, hr, rfl, rfl⟩
      · refine ⟨by simp, ?_, ?_⟩
        · intro err2 h2
          rw [htx] at h2
          simp at h2
        · intro err2 he _
          obtain rfl := Option.some.inj he
          exact ⟨tx, b1, htx, hs, rfl, hr⟩
      · refine ⟨by simp, ?_, ?_⟩
        · intro err2 h2
          rw [htx] at h2
          simp at h2
        · intro err2 he _
          simp at he

/-- Witness of C13: a call whose arguments fail to pack returns a nil receipt
and the encoding error on the untouched demonstration binding. -/
theorem execute_error_paths_witness :
    Execute demoEnv demoContract none "bad" [] = some (demoContract, none, some .encoding) ∧
    ((none : Option Receipt) = none ↔ some Err.encoding ≠ none) ∧
    (some Err.encoding = some .encoding ∧ demoContract = demoContract ∧
      demoContract.Backend.height = demoContract.Backend.height ∧
      demoContract.Backend.pending = demoContract.Backend.pending ∧
      ∀ acct, pendingNonceAt demoContract.Backend acct =
        pendingNonceAt demoContract.Backend acct) :=
  ⟨rfl,
    (execute_error_paths demoEnv demoContract demoContract none "bad" [] none
      (some .encoding) rfl).1,
    (execute_error_paths demoEnv demoContract demoContract none "bad" [] none
      (some .encoding) rfl).2.1 .encoding rfl⟩

theorem Execute_static {env : Env} {p p1 : Contract} {key : Option Key} {m : String}
    {a : List Val} {r : Option Receipt} {e : Option Err}
    (h : Execute env p key m a = some (p1, r, e)) :
    SameStaticFields p p1 ∧ p1.ConstructorInputs = p.ConstructorInputs ∧
      p1.Address = p.Address ∧ p1.BlockDeployed = p.BlockDeployed := by
  rcases Execute_inv h with ⟨err, -, rfl, -, -⟩ | ⟨tx, -, hcase⟩
  · exact ⟨⟨rfl, rfl, rfl, rfl, rfl, rfl, rfl⟩, rfl, rfl, rfl⟩
  · rcases hcase with ⟨-, rfl, -, -⟩ | ⟨b1, -, rfl, -⟩
    · exact ⟨⟨rfl, rfl, rfl, rfl, rfl, rfl, rfl⟩, rfl, rfl, rfl⟩
    · exact ⟨⟨rfl, rfl, rfl, rfl, rfl, rfl, rfl⟩, rfl, rfl, rfl⟩

theorem Deploy_static {env : Env} {p p1 : Contract} {args : List Val} {res : Option Err}
    (h : Deploy env p args = some (p1, res)) : SameStaticFields p p1 := by
  obtain ⟨abi, -, hcase⟩ := Deploy_inv h
  rcases hcase with ⟨-, rfl, -⟩ | ⟨input, tx, -, -, hcase⟩
  · exact ⟨rfl, rfl, rfl, rfl, rfl, rfl, rfl⟩
  rcases hcase with ⟨-, rfl, -⟩ | ⟨b1, -, r, -, hcase⟩
  · exact ⟨rfl, rfl, rfl, rfl, rfl, rfl, rfl⟩
  rcases hcase with ⟨-, rfl, -⟩ | ⟨-, rfl, -⟩
  · exact ⟨rfl, rfl, rfl, rfl, rfl, rfl, rfl⟩
  · exact ⟨rfl, rfl, rfl, rfl, rfl, rfl, rfl⟩

/-- C14: a `Deploy` that fails in argument packing changes no field of the
binding; a `Deploy` that fails at a later step has already overwritten
`ConstructorInputs` with the new arguments and leaves `Address` and
`BlockDeployed` as they were. `Deploy`, `Call`, `LowCall` and `Execute`,
whatever they return, change none of `File`, `Name`, `OwnerKey`, `Owner`,
`Abi`, `Code`, `Info`. -/
theorem deploy_not_atomic_on_constructor_inputs (env : Env) (p p1 : Contract)
    (args : List Val) (err : Err) (h : Deploy env p args = some (p1, some err)) :
    (∀ abi, p.Abi = some abi → env.pack abi "" args = none → p1 = p) ∧
    (∀ abi input, p.Abi = some abi → env.pack abi "" args = some input →
      p1.ConstructorInputs = args ∧ p1.Address = p.Address ∧
      p1.BlockDeployed = p.BlockDeployed) ∧
    (∀ q q1 args2 res, Deploy env q args2 = some (q1, res) → SameStaticFields q q1) ∧
    (∀ q q1 result m a v e, Call env q result m a = some (q1, v, e) →
      SameStaticFields q q1) ∧
    (∀ q q1 m a vs e, LowCall env q m a = some (q1, vs, e) → SameStaticFields q q1) ∧
    (∀ q q1 key m a r e, Execute env q key m a = some (q1, r, e) →
      SameStaticFields q q1) := by
  obtain ⟨abi, habi, hcase⟩ := Deploy_inv h
  refine ⟨?_, ?_, fun q q1 _ _ hq => Deploy_static hq, ?_, ?_,
    fun q q1 _ _ _ _ _ hq => (Execute_static hq).1⟩
  · intro abi2 habi2 hpack
    rw [habi] at habi2
    obtain rfl := Option.some.inj habi2
    rcases hcase with ⟨-, rfl, -⟩ | ⟨input, tx, hp, -, -⟩
    · rfl
    · rw [hpack] at hp
      simp at hp
  · intro abi2 input2 habi2 hpack
    rw [habi] at habi2
    obtain rfl := Option.some.inj habi2
    rcases hcase with ⟨hp, -, -⟩ | ⟨input, tx, -, -, hcase⟩
    · rw [hpack] at hp
      simp at hp
    rcases hcase with ⟨-, rfl, -⟩ | ⟨b1, -, r, -, hcase⟩
    · exact ⟨rfl, rfl, rfl⟩
    rcases hcase with ⟨-, rfl, -⟩ | ⟨-, -, hres⟩
    · exact ⟨rfl, rfl, rfl⟩
    · simp at hres
  · intro q q1 result m a v e hq
    have := Call_frame hq
    subst this
    exact ⟨rfl, rfl, rfl, rfl, rfl, rfl, rfl⟩
  · intro q q1 m a vs e hq
    have := LowCall_frame hq
    subst this
    exact ⟨rfl, rfl, rfl, rfl, rfl, rfl, rfl⟩

/-- Witness of C14: the deployment of the refused owner fails on the receipt
status after `ConstructorInputs` was overwritten with the new argument, with
`Address` and `BlockDeployed` still unset and the code unchanged. -/
theorem deploy_not_atomic_on_constructor_inputs_witness :
    ∃ p1, Deploy demoEnv demoContractRefused [.int 3] = some (p1, some (.deployStatus 0)) ∧
      demoContractRefused.ConstructorInputs = [] ∧
      (p1.ConstructorInputs = [.int 3] ∧ p1.Address = demoContractRefused.Address ∧
        p1.BlockDeployed = demoContractRefused.BlockDeployed) ∧
      SameStaticFields demoContractRefused p1 :=
  ⟨_, rfl, rfl,
    (deploy_not_atomic_on_constructor_inputs demoEnv demoContractRefused _ [.int 3]
      (.deployStatus 0) rfl).2.1 { Methods := [] } [0] rfl rfl,
    (deploy_not_atomic_on_constructor_inputs demoEnv demoContractRefused _ [.int 3]
      (.deployStatus 0) rfl).2.2.1 demoContractRefused _ [.int 3] _ rfl⟩

end Wemix
